import Mathlib

/-!
Verification of the gcli scheduled-email subsystem and multi-account fan-out.

The development shallowly embeds the Go sources:
  * internal/gmail scheduled store (ScheduledEmailData, LoadScheduledEmails,
    AddScheduledEmail, GetPendingScheduledEmails, UpdateScheduledEmail,
    MarkScheduledEmailSent, MarkScheduledEmailError, ClearSentScheduledEmails,
    generateID),
  * cmd/gcli/cmd/mail.go (mailScheduledSendCmd dispatch loop, mailScheduleCmd,
    mailReadCmd fan-out merge),
  * cmd/gcli/cmd (sortEventsByStart).

Modelling conventions: time.Time becomes Nat (time.Before is strict Nat.lt);
file I/O is abstracted away, so a store operation takes the loaded collection
(List ScheduledEmailData) and returns the collection that would be persisted;
fallible operations return Except String; ambient effects (clock readings,
config loading, network calls) become explicit parameters.
-/

namespace Gcli

/-- ScheduledEmailData mirrors the persisted record of internal/gmail
(scheduled store): the Go struct fields ID, Account, DraftID, To, CC, BCC,
Subject, Body, IsHTML, ScheduledAt, CreatedAt, Sent, SentAt, Error, with
time.Time rendered as Nat; the To field is named toRecipients because to is a
reserved word here. -/
structure ScheduledEmailData where
  id : String
  account : String
  draftID : String
  toRecipients : List String
  cc : List String
  bcc : List String
  subject : String
  body : String
  isHTML : Bool
  scheduledAt : Nat
  createdAt : Nat
  sent : Bool
  sentAt : Nat
  error : String
deriving DecidableEq

/-- generateID mirrors the Go generateID: the nanosecond clock reading
formatted in decimal (fmt.Sprintf with the d verb is decimal toString). -/
def generateID (nanos : Nat) : String :=
  toString nanos

/-- AddScheduledEmail mirrors the Go AddScheduledEmail: load the collection,
overwrite the ID, CreatedAt and Sent fields of the incoming item (all other
fields, including Error, are kept as given), append, and persist. The clock
reading used for the ID and CreatedAt is the explicit now parameter. -/
def AddScheduledEmail (emails : List ScheduledEmailData) (email : ScheduledEmailData)
    (now : Nat) : List ScheduledEmailData :=
  emails ++ [{ email with id := generateID now, createdAt := now, sent := false }]

/-- isPendingRecord is the eligibility test of the loop body of the Go
GetPendingScheduledEmails: not sent, empty error, scheduledAt strictly before
now, and (inner test) empty account filter or matching account. -/
def isPendingRecord (accountName : String) (now : Nat) (e : ScheduledEmailData) : Bool :=
  (!e.sent && e.error == "" && decide (e.scheduledAt < now)) &&
    (accountName == "" || e.account == accountName)

/-- GetPendingScheduledEmails mirrors the Go function: keep, in order, the
records passing the pending test against the clock reading now. -/
def GetPendingScheduledEmails (emails : List ScheduledEmailData) (accountName : String)
    (now : Nat) : List ScheduledEmailData :=
  emails.filter (isPendingRecord accountName now)

/-- ClearSentScheduledEmails mirrors the Go function: keep a record if it is
not sent, or if an account filter is active and the record belongs to a
different account; persist the remaining records. -/
def ClearSentScheduledEmails (emails : List ScheduledEmailData)
    (accountName : String) : List ScheduledEmailData :=
  emails.filter (fun e => !e.sent || (accountName != "" && e.account != accountName))

/-- updateFirst embeds the search loop of the Go UpdateScheduledEmail: walk the
collection, apply updateFn to the first record whose ID matches and stop; none
when no record matches (the found flag stays false). -/
def updateFirst (updateFn : ScheduledEmailData → ScheduledEmailData) (id : String) :
    List ScheduledEmailData → Option (List ScheduledEmailData)
  | [] => none
  | e :: rest =>
    if e.id = id then some (updateFn e :: rest)
    else
      match updateFirst updateFn id rest with
      | some rest2 => some (e :: rest2)
      | none => none

/-- squote is the ASCII single-quote character used by the %s quoting in the
Go not-found error message. -/
def squote : String :=
  String.singleton (Char.ofNat 39)

/-- notFoundMessage is the error text of the Go UpdateScheduledEmail when the
ID is absent. -/
def notFoundMessage (id : String) : String :=
  "scheduled email " ++ squote ++ id ++ squote ++ " not found"

/-- UpdateScheduledEmail mirrors the Go function: apply updateFn to the first
record with the given ID and persist the whole collection; when the ID is
absent, fail with the not-found error and perform no write. -/
def UpdateScheduledEmail (emails : List ScheduledEmailData) (id : String)
    (updateFn : ScheduledEmailData → ScheduledEmailData) :
    Except String (List ScheduledEmailData) :=
  match updateFirst updateFn id emails with
  | some emails2 => Except.ok emails2
  | none => Except.error (notFoundMessage id)

/-- MarkScheduledEmailSent mirrors the Go function: update the record with the
given ID by setting Sent true and SentAt to the clock reading now. The
messageID parameter is accepted, as in the Go signature, and never used. -/
def MarkScheduledEmailSent (emails : List ScheduledEmailData) (id : String)
    (messageID : String) (now : Nat) : Except String (List ScheduledEmailData) :=
  UpdateScheduledEmail emails id (fun e => { e with sent := true, sentAt := now })

/-- MarkScheduledEmailError mirrors the Go function: update the record with the
given ID by setting Error to errMsg, leaving Sent untouched. -/
def MarkScheduledEmailError (emails : List ScheduledEmailData) (id : String)
    (errMsg : String) : Except String (List ScheduledEmailData) :=
  UpdateScheduledEmail emails id (fun e => { e with error := errMsg })

/-- persistedAfter gives the collection on disk after a store mutation: the Go
UpdateScheduledEmail calls SaveScheduledEmails only on success, so on the error
path the previously loaded collection is left as it was. -/
def persistedAfter (emails : List ScheduledEmailData)
    (result : Except String (List ScheduledEmailData)) : List ScheduledEmailData :=
  match result with
  | Except.ok emails2 => emails2
  | Except.error _ => emails

/-- Membership in the pending test, in propositional form. -/
theorem isPendingRecord_eq_true_iff (accountName : String) (now : Nat)
    (e : ScheduledEmailData) :
    isPendingRecord accountName now e = true ↔
      e.sent = false ∧ e.error = "" ∧ e.scheduledAt < now ∧
        (accountName = "" ∨ e.account = accountName) := by
  simp [isPendingRecord, and_assoc, Bool.not_eq_true']

/-- C2: GetPendingScheduledEmails returns exactly the records that are unsent,
carry no error, and are scheduled strictly before now, filtered by account when
the filter is non-empty; a record scheduled exactly at now is excluded. -/
theorem getPending_mem_iff (emails : List ScheduledEmailData) (accountName : String)
    (now : Nat) (e : ScheduledEmailData) :
    (e ∈ GetPendingScheduledEmails emails accountName now ↔
      e ∈ emails ∧ e.sent = false ∧ e.error = "" ∧ e.scheduledAt < now ∧
        (accountName = "" ∨ e.account = accountName)) ∧
    (e.scheduledAt = now → e ∉ GetPendingScheduledEmails emails accountName now) := by
  constructor
  · rw [GetPendingScheduledEmails, List.mem_filter, isPendingRecord_eq_true_iff]
  · intro hnow hmem
    rw [GetPendingScheduledEmails, List.mem_filter, isPendingRecord_eq_true_iff] at hmem
    exact absurd hmem.2.2.2.1 (by omega)

/-- C3: ClearSentScheduledEmails keeps exactly the records that are unsent or
belong to an account other than a non-empty filter; in particular an unsent
record is never removed. -/
theorem clearSent_mem_iff (emails : List ScheduledEmailData) (accountName : String)
    (e : ScheduledEmailData) :
    (e ∈ ClearSentScheduledEmails emails accountName ↔
      e ∈ emails ∧ (e.sent = false ∨ (accountName ≠ "" ∧ e.account ≠ accountName))) ∧
    (e ∈ emails → e.sent = false → e ∈ ClearSentScheduledEmails emails accountName) := by
  have hiff : e ∈ ClearSentScheduledEmails emails accountName ↔
      e ∈ emails ∧ (e.sent = false ∨ (accountName ≠ "" ∧ e.account ≠ accountName)) := by
    rw [ClearSentScheduledEmails, List.mem_filter]
    simp [Bool.not_eq_true']
  exact ⟨hiff, fun hmem hsent => hiff.mpr ⟨hmem, Or.inl hsent⟩⟩

/-- Record used in concrete witnesses and counterexamples. -/
def sampleRecord : ScheduledEmailData :=
  { id := "id1", account := "work", draftID := "d1", toRecipients := ["a@b.c"],
    cc := [], bcc := [], subject := "subj", body := "body", isHTML := false,
    scheduledAt := 10, createdAt := 1, sent := false, sentAt := 0, error := "" }

/-- C2 witness: a record scheduled exactly at the current instant is not
returned as pending. -/
theorem getPending_mem_iff_witness :
    ({ sampleRecord with scheduledAt := 20 } : ScheduledEmailData)
      ∉ GetPendingScheduledEmails [{ sampleRecord with scheduledAt := 20 }] "" 20 :=
  (getPending_mem_iff [{ sampleRecord with scheduledAt := 20 }] "" 20
    { sampleRecord with scheduledAt := 20 }).2 rfl

/-- C3 witness: an unsent record survives a filtered clear. -/
theorem clearSent_mem_iff_witness :
    sampleRecord ∈ ClearSentScheduledEmails [sampleRecord] "work" :=
  (clearSent_mem_iff [sampleRecord] "work" sampleRecord).2 (by simp) rfl

/-- updateFirst finds nothing exactly when no record carries the ID. -/
theorem updateFirst_eq_none_iff (updateFn : ScheduledEmailData → ScheduledEmailData)
    (id : String) (emails : List ScheduledEmailData) :
    updateFirst updateFn id emails = none ↔ ∀ r ∈ emails, r.id ≠ id := by
  induction emails with
  | nil => simp [updateFirst]
  | cons e rest ih =>
    by_cases he : e.id = id
    · simp [updateFirst, he]
    · simp only [updateFirst, he, if_false, List.mem_cons]
      cases h : updateFirst updateFn id rest with
      | some rest2 =>
        simp only [h] at ih
        simp only [reduceCtorEq, false_iff, not_forall]
        have : ¬ ∀ r ∈ rest, r.id ≠ id := by
          intro hall
          exact absurd (ih.mpr hall) (by simp [h])
        push_neg at this
        obtain ⟨r, hr, hrid⟩ := this
        exact ⟨r, Or.inr hr, by simp [hrid]⟩
      | none =>
        simp only [h, true_iff] at ih
        simp only [true_iff]
        intro r hr
        rcases hr with rfl | hr
        · exact he
        · exact ih r hr

/-- Successful updateFirst splits the collection at the first matching record
and rewrites only that record. -/
theorem updateFirst_eq_some (updateFn : ScheduledEmailData → ScheduledEmailData)
    (id : String) (emails emails2 : List ScheduledEmailData)
    (h : updateFirst updateFn id emails = some emails2) :
    ∃ l1 e l2, emails = l1 ++ e :: l2 ∧ e.id = id ∧ (∀ r ∈ l1, r.id ≠ id) ∧
      emails2 = l1 ++ updateFn e :: l2 := by
  induction emails generalizing emails2 with
  | nil => simp [updateFirst] at h
  | cons e rest ih =>
    by_cases he : e.id = id
    · simp only [updateFirst, he, if_true, Option.some.injEq] at h
      exact ⟨[], e, rest, by simp, he, by simp, by simp [h.symm]⟩
    · simp only [updateFirst, he, if_false] at h
      cases hrest : updateFirst updateFn id rest with
      | some rest2 =>
        simp only [hrest, Option.some.injEq] at h
        obtain ⟨l1, e1, l2, hsplit, hid, hl1, hrw⟩ := ih rest2 hrest
        exact ⟨e :: l1, e1, l2, by simp [hsplit], hid,
          by simpa [he] using hl1, by simp [h.symm, hrw]⟩
      | none => simp [hrest] at h

/-- C4: marking an absent ID as sent or errored fails with the not-found error
and the persisted store is unchanged, because the Go error path returns before
any SaveScheduledEmails call. -/
theorem mark_not_found (emails : List ScheduledEmailData) (id messageID errMsg : String)
    (now : Nat) (h : ∀ r ∈ emails, r.id ≠ id) :
    MarkScheduledEmailSent emails id messageID now = Except.error (notFoundMessage id) ∧
    MarkScheduledEmailError emails id errMsg = Except.error (notFoundMessage id) ∧
    persistedAfter emails (MarkScheduledEmailSent emails id messageID now) = emails ∧
    persistedAfter emails (MarkScheduledEmailError emails id errMsg) = emails := by
  have hs : updateFirst (fun e => { e with sent := true, sentAt := now }) id emails = none :=
    (updateFirst_eq_none_iff _ id emails).mpr h
  have he : updateFirst (fun e => { e with error := errMsg }) id emails = none :=
    (updateFirst_eq_none_iff _ id emails).mpr h
  refine ⟨?_, ?_, ?_, ?_⟩ <;>
    simp [MarkScheduledEmailSent, MarkScheduledEmailError, UpdateScheduledEmail,
      persistedAfter, hs, he]

/-- C4 witness: marking an ID in an empty store fails and persists nothing. -/
theorem mark_not_found_witness :
    MarkScheduledEmailSent [] "missing" "m" 3 = Except.error (notFoundMessage "missing") ∧
    persistedAfter [] (MarkScheduledEmailError [] "missing" "boom") = [] := by
  have h := mark_not_found [] "missing" "m" "boom" 3 (by simp)
  exact ⟨h.1, h.2.2.2⟩

/-- C10: the messageID argument of MarkScheduledEmailSent never reaches the
store: two calls differing only in messageID return identical results, and a
successful call rewrites exactly one record, changing only Sent and SentAt. -/
theorem markSent_ignores_messageID (emails : List ScheduledEmailData)
    (id m1 m2 : String) (now : Nat) :
    MarkScheduledEmailSent emails id m1 now = MarkScheduledEmailSent emails id m2 now ∧
    (∀ emails2, MarkScheduledEmailSent emails id m1 now = Except.ok emails2 →
      ∃ l1 e l2, emails = l1 ++ e :: l2 ∧ e.id = id ∧
        emails2 = l1 ++ { e with sent := true, sentAt := now } :: l2) := by
  refine ⟨rfl, fun emails2 hok => ?_⟩
  cases hup : updateFirst (fun e => { e with sent := true, sentAt := now }) id emails with
  | some s2 =>
    rw [MarkScheduledEmailSent, UpdateScheduledEmail, hup] at hok
    simp only [Except.ok.injEq] at hok
    obtain ⟨l1, e, l2, hsplit, hid, _, hrw⟩ := updateFirst_eq_some _ id emails s2 hup
    exact ⟨l1, e, l2, hsplit, hid, by rw [← hok]; exact hrw⟩
  | none =>
    rw [MarkScheduledEmailSent, UpdateScheduledEmail, hup] at hok
    exact absurd hok (by simp)

/-- C10 witness: the decomposition applied to a one-record store. -/
theorem markSent_ignores_messageID_witness :
    ∃ l1 e l2, [sampleRecord] = l1 ++ e :: l2 ∧ e.id = "id1" ∧
      [{ sampleRecord with sent := true, sentAt := 7 }] =
        l1 ++ { e with sent := true, sentAt := 7 } :: l2 :=
  (markSent_ignores_messageID [sampleRecord] "id1" "msgA" "msgB" 7).2
    [{ sampleRecord with sent := true, sentAt := 7 }] rfl

/-- C7 amended: AddScheduledEmail appends exactly one record, with the fresh ID
and CreatedAt taken from the clock, Sent forced false, and every other field,
including Error, copied from the input item; when the input carries no error
(as the schedule command always arranges) the new record starts pending. -/
theorem addScheduled_spec (emails : List ScheduledEmailData) (email : ScheduledEmailData)
    (now : Nat) :
    ∃ r, AddScheduledEmail emails email now = emails ++ [r] ∧
      r.id = generateID now ∧ r.createdAt = now ∧ r.sent = false ∧
      r.error = email.error ∧ r.account = email.account ∧ r.draftID = email.draftID ∧
      r.subject = email.subject ∧ r.body = email.body ∧
      r.scheduledAt = email.scheduledAt ∧ r.toRecipients = email.toRecipients ∧
      (email.error = "" → r.sent = false ∧ r.error = "") :=
  ⟨{ email with id := generateID now, createdAt := now, sent := false },
    rfl, rfl, rfl, rfl, rfl, rfl, rfl, rfl, rfl, rfl, rfl, fun h => ⟨rfl, h⟩⟩

/-- Input item carrying a leftover error, exercising the Add error path. -/
def addErrorCexItem : ScheduledEmailData :=
  { sampleRecord with error := "previous failure" }

/-- C7 counterexample: AddScheduledEmail does not force the Error field to be
empty, so a record created from an item with a non-empty error does not start
pending; the claim that every record so created has no error is false. -/
theorem addScheduled_error_cex :
    (AddScheduledEmail [] addErrorCexItem 7).map ScheduledEmailData.error =
      ["previous failure"] ∧
    ¬ (∀ r ∈ AddScheduledEmail [] addErrorCexItem 7, r.error = "") := by
  exact ⟨rfl, by decide⟩

/-- SendOutcome classifies one iteration of the dispatch loop of the Go
mailScheduledSendCmd: failure of cfg.GetAccount, of gmail.NewClient, of
client.SendDraft, or success carrying the returned message ID. -/
inductive SendOutcome where
  | accountErr (msg : String)
  | clientErr (msg : String)
  | sendErr (msg : String)
  | sendOk (messageID : String)
deriving DecidableEq

/-- DispatchEnv supplies the ambient effects consumed by the dispatcher:
config.Load, cfg.GetAccount by account name, gmail.NewClient by account name,
and client.SendDraft by account name and draft ID. -/
structure DispatchEnv where
  loadConfig : Except String Unit
  getAccount : String → Except String Unit
  newClient : String → Except String Unit
  sendDraft : String → String → Except String String

/-- dispatchOutcome chains the three fallible calls of the Go loop body for one
record, stopping at the first failure. -/
def dispatchOutcome (env : DispatchEnv) (e : ScheduledEmailData) : SendOutcome :=
  match env.getAccount e.account with
  | Except.error m => SendOutcome.accountErr m
  | Except.ok _ =>
    match env.newClient e.account with
    | Except.error m => SendOutcome.clientErr m
    | Except.ok _ =>
      match env.sendDraft e.account e.draftID with
      | Except.error m => SendOutcome.sendErr m
      | Except.ok mid => SendOutcome.sendOk mid

/-- Error text carried by a failing outcome, none on success. -/
def outcomeErrMsg : SendOutcome → Option String
  | SendOutcome.accountErr m => some m
  | SendOutcome.clientErr m => some m
  | SendOutcome.sendErr m => some m
  | SendOutcome.sendOk _ => none

/-- sendAttempted holds when the loop body reaches the SendDraft call for the
record (the first two steps succeeded). -/
def sendAttempted (env : DispatchEnv) (e : ScheduledEmailData) : Bool :=
  match dispatchOutcome env e with
  | SendOutcome.sendErr _ => true
  | SendOutcome.sendOk _ => true
  | _ => false

/-- outcomeFn is the record mutation the loop body applies for an outcome: the
MarkScheduledEmailSent closure on success, the MarkScheduledEmailError closure
with the error text on any failure. -/
def outcomeFn (o : SendOutcome) (now : Nat) : ScheduledEmailData → ScheduledEmailData :=
  match o with
  | SendOutcome.sendOk _ => fun e => { e with sent := true, sentAt := now }
  | SendOutcome.accountErr m => fun e => { e with error := m }
  | SendOutcome.clientErr m => fun e => { e with error := m }
  | SendOutcome.sendErr m => fun e => { e with error := m }

/-- DispatchResult is the observable outcome of one dispatcher invocation: the
persisted store, the sentCount and errorCount of the printed summary, the IDs
of records for which SendDraft was invoked, the IDs of records the loop
processed, and the overall command error (config load failure). -/
structure DispatchResult where
  store : List ScheduledEmailData
  sentCount : Nat
  errorCount : Nat
  sendLog : List String
  attemptLog : List String
  cmdError : Option String
deriving DecidableEq

/-- dispatchStep is one iteration of the Go dispatch loop: resolve account,
build client, send draft; on failure mark the record errored and count a
failure, on success mark it sent and count a success. The Mark calls reload
and rewrite the store, and their own error return is discarded, exactly as in
the Go code. -/
def dispatchStep (env : DispatchEnv) (now : Nat) (st : DispatchResult)
    (e : ScheduledEmailData) : DispatchResult :=
  match dispatchOutcome env e with
  | SendOutcome.accountErr m =>
    { st with
        store := persistedAfter st.store (MarkScheduledEmailError st.store e.id m),
        errorCount := st.errorCount + 1,
        attemptLog := st.attemptLog ++ [e.id] }
  | SendOutcome.clientErr m =>
    { st with
        store := persistedAfter st.store (MarkScheduledEmailError st.store e.id m),
        errorCount := st.errorCount + 1,
        attemptLog := st.attemptLog ++ [e.id] }
  | SendOutcome.sendErr m =>
    { st with
        store := persistedAfter st.store (MarkScheduledEmailError st.store e.id m),
        errorCount := st.errorCount + 1,
        sendLog := st.sendLog ++ [e.id],
        attemptLog := st.attemptLog ++ [e.id] }
  | SendOutcome.sendOk mid =>
    { st with
        store := persistedAfter st.store (MarkScheduledEmailSent st.store e.id mid now),
        sentCount := st.sentCount + 1,
        sendLog := st.sendLog ++ [e.id],
        attemptLog := st.attemptLog ++ [e.id] }

/-- mailScheduledSendCmd mirrors the scheduled send command: fetch the pending
records, stop when there are none, stop before any effect in dry-run mode,
fail wholesale when config loading fails, and otherwise run the dispatch loop
sequentially over the pending snapshot. -/
def mailScheduledSendCmd (env : DispatchEnv) (store : List ScheduledEmailData)
    (accountName : String) (now : Nat) (dryRun : Bool) : DispatchResult :=
  let pending := GetPendingScheduledEmails store accountName now
  if pending.isEmpty then ⟨store, 0, 0, [], [], none⟩
  else if dryRun then ⟨store, 0, 0, [], [], none⟩
  else
    match env.loadConfig with
    | Except.error msg => ⟨store, 0, 0, [], [], some ("failed to load config: " ++ msg)⟩
    | Except.ok _ => pending.foldl (dispatchStep env now) ⟨store, 0, 0, [], [], none⟩

/-- applyUpdate is the store state after an Update call whose error return is
discarded: the rewritten collection on success, the unchanged one otherwise. -/
def applyUpdate (s : List ScheduledEmailData) (i : String)
    (f : ScheduledEmailData → ScheduledEmailData) : List ScheduledEmailData :=
  persistedAfter s (UpdateScheduledEmail s i f)

/-- stepStore is the store component of dispatchStep. -/
def stepStore (env : DispatchEnv) (now : Nat) (s : List ScheduledEmailData)
    (e : ScheduledEmailData) : List ScheduledEmailData :=
  applyUpdate s e.id (outcomeFn (dispatchOutcome env e) now)

/-- Unfolding equation of applyUpdate on a cons cell. -/
theorem applyUpdate_cons (e : ScheduledEmailData) (rest : List ScheduledEmailData)
    (i : String) (f : ScheduledEmailData → ScheduledEmailData) :
    applyUpdate (e :: rest) i f =
      if e.id = i then f e :: rest else e :: applyUpdate rest i f := by
  by_cases he : e.id = i
  · simp [applyUpdate, UpdateScheduledEmail, updateFirst, he, persistedAfter]
  · simp only [applyUpdate, UpdateScheduledEmail, updateFirst, he, if_false, if_neg]
    cases h : updateFirst f i rest with
    | some rest2 => simp [persistedAfter, h]
    | none => simp [persistedAfter, h]

/-- outcomeFn never changes the record ID. -/
theorem outcomeFn_id (o : SendOutcome) (now : Nat) (r : ScheduledEmailData) :
    (outcomeFn o now r).id = r.id := by
  cases o <;> rfl

/-- applyUpdate with an ID-preserving mutation preserves the ID sequence. -/
theorem applyUpdate_map_id (s : List ScheduledEmailData) (i : String)
    (f : ScheduledEmailData → ScheduledEmailData) (hf : ∀ r, (f r).id = r.id) :
    (applyUpdate s i f).map (fun r => r.id) = s.map (fun r => r.id) := by
  induction s with
  | nil => rfl
  | cons e rest ih =>
    rw [applyUpdate_cons]
    by_cases he : e.id = i <;> simp [he, hf, ih]

/-- findById returns the first record carrying the ID, as the Go search loop
does. -/
def findById (s : List ScheduledEmailData) (i : String) : Option ScheduledEmailData :=
  s.find? (fun r => r.id == i)

/-- Updating one ID leaves lookups of a different ID unchanged. -/
theorem findById_applyUpdate_ne (s : List ScheduledEmailData) (i j : String)
    (f : ScheduledEmailData → ScheduledEmailData) (hf : ∀ r, (f r).id = r.id)
    (hne : i ≠ j) :
    findById (applyUpdate s i f) j = findById s j := by
  induction s with
  | nil => rfl
  | cons e rest ih =>
    rw [applyUpdate_cons]
    by_cases he : e.id = i
    · rw [if_pos he, findById, findById,
        List.find?_cons_of_neg _ (by simp [hf e, he]; exact hne),
        List.find?_cons_of_neg _ (by simp [he]; exact hne)]
    · rw [if_neg he]
      by_cases hej : e.id = j
      · rw [findById, findById, List.find?_cons_of_pos _ (by simp [hej]),
          List.find?_cons_of_pos _ (by simp [hej])]
      · rw [findById, findById, List.find?_cons_of_neg _ (by simp [hej]),
          List.find?_cons_of_neg _ (by simp [hej])]
        exact ih

/-- Updating an ID maps the lookup of that ID through the mutation. -/
theorem findById_applyUpdate_self (s : List ScheduledEmailData) (i : String)
    (f : ScheduledEmailData → ScheduledEmailData) (hf : ∀ r, (f r).id = r.id) :
    findById (applyUpdate s i f) i = Option.map f (findById s i) := by
  induction s with
  | nil => rfl
  | cons e rest ih =>
    rw [applyUpdate_cons]
    by_cases he : e.id = i
    · rw [if_pos he, findById, findById, List.find?_cons_of_pos _ (by simp [hf e, he]),
        List.find?_cons_of_pos _ (by simp [he])]
      rfl
    · rw [if_neg he, findById, findById, List.find?_cons_of_neg _ (by simp [he]),
        List.find?_cons_of_neg _ (by simp [he])]
      exact ih

/-- With unique IDs, looking a member record up by its own ID returns it. -/
theorem findById_of_nodup (s : List ScheduledEmailData) (j : ScheduledEmailData)
    (hnd : (s.map (fun r => r.id)).Nodup) (hmem : j ∈ s) :
    findById s j.id = some j := by
  induction s with
  | nil => simp at hmem
  | cons e rest ih =>
    rcases List.mem_cons.mp hmem with rfl | hmem2
    · simp [findById, List.find?]
    · have hne : e.id ≠ j.id := by
        intro hcontra
        have : j.id ∈ rest.map (fun r => r.id) := List.mem_map_of_mem _ hmem2
        rw [List.map_cons, List.nodup_cons] at hnd
        exact hnd.1 (hcontra ▸ this)
      have hrec := ih (by rw [List.map_cons, List.nodup_cons] at hnd; exact hnd.2) hmem2
      rw [findById, List.find?_cons_of_neg _ (by simp [hne])]
      exact hrec

/-- Components of one dispatch step: the store moves by stepStore, exactly one
of the two counters increments, the record is logged as attempted, and it is
logged as a send exactly when SendDraft was reached. -/
theorem dispatchStep_proj (env : DispatchEnv) (now : Nat) (st : DispatchResult)
    (e : ScheduledEmailData) :
    (dispatchStep env now st e).store = stepStore env now st.store e ∧
    (dispatchStep env now st e).sentCount + (dispatchStep env now st e).errorCount
      = st.sentCount + st.errorCount + 1 ∧
    (dispatchStep env now st e).attemptLog = st.attemptLog ++ [e.id] ∧
    (dispatchStep env now st e).sendLog =
      st.sendLog ++ (if sendAttempted env e then [e.id] else []) ∧
    (dispatchStep env now st e).cmdError = st.cmdError := by
  cases h : dispatchOutcome env e <;>
    simp [dispatchStep, stepStore, applyUpdate, outcomeFn, sendAttempted, h,
      MarkScheduledEmailError, MarkScheduledEmailSent] <;> omega

/-- Components of the dispatch loop over a pending list: the store folds by
stepStore, the counters add up to the number of processed records, every
processed record is logged as attempted, and the send log collects exactly the
records whose send step was reached. -/
theorem foldl_dispatchStep_proj (env : DispatchEnv) (now : Nat) :
    ∀ (l : List ScheduledEmailData) (st : DispatchResult),
      (l.foldl (dispatchStep env now) st).store = l.foldl (stepStore env now) st.store ∧
      (l.foldl (dispatchStep env now) st).sentCount
          + (l.foldl (dispatchStep env now) st).errorCount
        = st.sentCount + st.errorCount + l.length ∧
      (l.foldl (dispatchStep env now) st).attemptLog
        = st.attemptLog ++ l.map (fun r => r.id) ∧
      (l.foldl (dispatchStep env now) st).sendLog
        = st.sendLog ++ (l.filter (sendAttempted env)).map (fun r => r.id) ∧
      (l.foldl (dispatchStep env now) st).cmdError = st.cmdError := by
  intro l
  induction l with
  | nil => intro st; simp
  | cons e rest ih =>
    intro st
    obtain ⟨h1, h2, h3, h4, h5⟩ := dispatchStep_proj env now st e
    obtain ⟨g1, g2, g3, g4, g5⟩ := ih (dispatchStep env now st e)
    refine ⟨?_, ?_, ?_, ?_, ?_⟩
    · rw [List.foldl_cons, g1, h1, List.foldl_cons]
    · rw [List.foldl_cons, g2, h2, List.length_cons]; omega
    · rw [List.foldl_cons, g3, h3, List.map_cons, List.append_assoc]; rfl
    · rw [List.foldl_cons, g4, h4, List.append_assoc]
      by_cases ha : sendAttempted env e <;>
        simp [List.filter_cons, ha]
    · rw [List.foldl_cons, g5, h5]

/-- A record rewritten by outcomeFn is never pending again: on success it is
sent, on failure it carries the (non-empty) error text. -/
theorem isPendingRecord_outcomeFn (accountName : String) (checkNow : Nat)
    (o : SendOutcome) (now : Nat) (hmsg : outcomeErrMsg o ≠ some "")
    (r : ScheduledEmailData) :
    isPendingRecord accountName checkNow (outcomeFn o now r) = false := by
  rw [Bool.eq_false_iff]
  intro hcontra
  rw [isPendingRecord_eq_true_iff] at hcontra
  cases o with
  | sendOk mid => exact absurd hcontra.1 (by simp [outcomeFn])
  | accountErr m =>
    exact hmsg (by simp [outcomeFn] at hcontra; simp [outcomeErrMsg, hcontra.2.1])
  | clientErr m =>
    exact hmsg (by simp [outcomeFn] at hcontra; simp [outcomeErrMsg, hcontra.2.1])
  | sendErr m =>
    exact hmsg (by simp [outcomeFn] at hcontra; simp [outcomeErrMsg, hcontra.2.1])

/-- When updateFirst fails, applyUpdate leaves the store alone. -/
theorem applyUpdate_of_none (s : List ScheduledEmailData) (i : String)
    (f : ScheduledEmailData → ScheduledEmailData)
    (h : updateFirst f i s = none) : applyUpdate s i f = s := by
  rw [applyUpdate, UpdateScheduledEmail, h]
  rfl

/-- When updateFirst succeeds, applyUpdate is the rewritten collection. -/
theorem applyUpdate_of_some (s s2 : List ScheduledEmailData) (i : String)
    (f : ScheduledEmailData → ScheduledEmailData)
    (h : updateFirst f i s = some s2) : applyUpdate s i f = s2 := by
  rw [applyUpdate, UpdateScheduledEmail, h]
  rfl

/-- After the dispatch loop runs over a list covering every still-pending ID
(with unique store IDs and non-empty failure texts), no record of the
resulting store is pending. -/
theorem foldl_stepStore_kills_pending (env : DispatchEnv) (accountName : String)
    (now : Nat) :
    ∀ (l : List ScheduledEmailData) (s : List ScheduledEmailData),
      (s.map (fun r => r.id)).Nodup →
      (∀ r ∈ s, r.id ∉ l.map (fun r => r.id) →
        isPendingRecord accountName now r = false) →
      (∀ e ∈ l, outcomeErrMsg (dispatchOutcome env e) ≠ some "") →
      ∀ r ∈ l.foldl (stepStore env now) s,
        isPendingRecord accountName now r = false := by
  intro l
  induction l with
  | nil =>
    intro s _ hcover _ r hr
    exact hcover r hr (by simp)
  | cons e rest ih =>
    intro s hnd hcover hmsg
    rw [List.foldl_cons]
    have hfe : ∀ x, (outcomeFn (dispatchOutcome env e) now x).id = x.id :=
      outcomeFn_id (dispatchOutcome env e) now
    have hnd2 : ((stepStore env now s e).map (fun r => r.id)).Nodup := by
      rw [stepStore, applyUpdate_map_id _ _ _ hfe]; exact hnd
    refine ih (stepStore env now s e) hnd2 ?_ (fun x hx => hmsg x (List.mem_cons_of_mem e hx))
    intro r hr hrid
    rw [stepStore] at hr
    cases hup : updateFirst (outcomeFn (dispatchOutcome env e) now) e.id s with
    | none =>
      rw [applyUpdate_of_none _ _ _ hup] at hr
      have hnotid : r.id ≠ e.id :=
        fun hc => (updateFirst_eq_none_iff _ e.id s).mp hup r hr hc
      exact hcover r hr (by
        rw [List.map_cons, List.mem_cons]
        rintro (hc | hc)
        · exact hnotid hc
        · exact hrid hc)
    | some s2 =>
      rw [applyUpdate_of_some _ _ _ _ hup] at hr
      obtain ⟨l1, a, l2, hsplit, haid, hl1, hrw⟩ := updateFirst_eq_some _ e.id s s2 hup
      rw [hrw] at hr
      rcases List.mem_append.mp hr with hr1 | hr2
      · refine hcover r (by rw [hsplit]; exact List.mem_append_left _ hr1) ?_
        rw [List.map_cons, List.mem_cons]
        rintro (hc | hc)
        · exact hl1 r hr1 hc
        · exact hrid hc
      · rcases List.mem_cons.mp hr2 with rfl | hr3
        · exact isPendingRecord_outcomeFn accountName now _ now
            (hmsg e (List.mem_cons_self e rest)) a
        · have hrins : r ∈ s := by
            rw [hsplit]
            exact List.mem_append_right _ (List.mem_cons_of_mem a hr3)
          refine hcover r hrins ?_
          rw [List.map_cons, List.mem_cons]
          rintro (hc | hc)
          · -- a second record with the processed ID would break Nodup
            have hsub : (a.id :: l2.map (fun r => r.id)).Sublist
                (s.map (fun r => r.id)) := by
              rw [hsplit, List.map_append, List.map_cons]
              exact (List.sublist_append_right _ _)
            have : (a.id :: l2.map (fun r => r.id)).Nodup := hnd.sublist hsub
            rw [List.nodup_cons] at this
            exact this.1 (by
              rw [← haid] at hc
              exact hc ▸ List.mem_map_of_mem _ hr3)
          · exact hrid hc

/-- C1: running the dispatcher, then running it again with the same clock and
no new schedules, leaves no pending record for the second run; the second run
performs no sends, no store mutation, and reports zero successes and zero
failures; and the first run sends each record at most once (unique store IDs,
successful config load, and non-empty failure texts assumed). -/
theorem dispatch_idempotent (env1 env2 : DispatchEnv) (store : List ScheduledEmailData)
    (accountName : String) (now : Nat)
    (hids : (store.map (fun r => r.id)).Nodup)
    (hcfg : env1.loadConfig = Except.ok ())
    (herr : ∀ e ∈ GetPendingScheduledEmails store accountName now,
      outcomeErrMsg (dispatchOutcome env1 e) ≠ some "") :
    GetPendingScheduledEmails
        (mailScheduledSendCmd env1 store accountName now false).store accountName now
      = [] ∧
    mailScheduledSendCmd env2
        (mailScheduledSendCmd env1 store accountName now false).store accountName now false
      = ⟨(mailScheduledSendCmd env1 store accountName now false).store, 0, 0, [], [], none⟩ ∧
    (mailScheduledSendCmd env1 store accountName now false).sendLog.Nodup := by
  by_cases hemp : (GetPendingScheduledEmails store accountName now).isEmpty
  · have hpe : GetPendingScheduledEmails store accountName now = [] := by
      simpa using hemp
    have hrun : mailScheduledSendCmd env1 store accountName now false =
        ⟨store, 0, 0, [], [], none⟩ := by
      rw [mailScheduledSendCmd]
      simp [hemp]
    refine ⟨by rw [hrun]; exact hpe, ?_, by rw [hrun]; simp⟩
    rw [hrun]
    rw [mailScheduledSendCmd]
    simp [hemp]
  · have hrun : mailScheduledSendCmd env1 store accountName now false =
        (GetPendingScheduledEmails store accountName now).foldl (dispatchStep env1 now)
          ⟨store, 0, 0, [], [], none⟩ := by
      rw [mailScheduledSendCmd]
      simp only [hcfg]
      simp [hemp]
    obtain ⟨hst, hcnt, hatt, hsend, _⟩ := foldl_dispatchStep_proj env1 now
      (GetPendingScheduledEmails store accountName now) ⟨store, 0, 0, [], [], none⟩
    have hcover : ∀ r ∈ store,
        r.id ∉ (GetPendingScheduledEmails store accountName now).map (fun r => r.id) →
        isPendingRecord accountName now r = false := by
      intro r hr hrid
      rw [Bool.eq_false_iff]
      intro hp
      exact hrid (List.mem_map_of_mem _ (List.mem_filter.mpr ⟨hr, hp⟩))
    have hkill := foldl_stepStore_kills_pending env1 accountName now
      (GetPendingScheduledEmails store accountName now) store hids hcover herr
    have hpend2 : GetPendingScheduledEmails
        (mailScheduledSendCmd env1 store accountName now false).store accountName now
        = [] := by
      rw [hrun, hst]
      rw [GetPendingScheduledEmails, List.filter_eq_nil_iff]
      intro a ha
      rw [hkill a ha]
      simp
    refine ⟨hpend2, ?_, ?_⟩
    · rw [mailScheduledSendCmd]
      simp [hpend2]
    · rw [hrun, hsend]
      simp only [List.nil_append]
      refine List.Nodup.sublist ?_ hids
      exact ((List.filter_sublist _).trans (List.filter_sublist _)).map _

/-- Environment in which every external call succeeds. -/
def okEnv : DispatchEnv :=
  { loadConfig := Except.ok (), getAccount := fun _ => Except.ok (),
    newClient := fun _ => Except.ok (), sendDraft := fun _ _ => Except.ok "msg-1" }

/-- C1 witness: a one-record store, dispatched twice at the same clock. -/
theorem dispatch_idempotent_witness :
    GetPendingScheduledEmails
        (mailScheduledSendCmd okEnv [sampleRecord] "" 20 false).store "" 20 = [] ∧
    mailScheduledSendCmd okEnv
        (mailScheduledSendCmd okEnv [sampleRecord] "" 20 false).store "" 20 false
      = ⟨(mailScheduledSendCmd okEnv [sampleRecord] "" 20 false).store, 0, 0, [], [],
          none⟩ ∧
    (mailScheduledSendCmd okEnv [sampleRecord] "" 20 false).sendLog.Nodup :=
  dispatch_idempotent okEnv okEnv [sampleRecord] "" 20 (by decide) rfl
    (fun e _ => by simp [dispatchOutcome, okEnv, outcomeErrMsg])

/-- The dispatch loop leaves lookups of an unprocessed ID unchanged. -/
theorem foldl_stepStore_findById_ne (env : DispatchEnv) (now : Nat) (jid : String) :
    ∀ (l : List ScheduledEmailData), (∀ e ∈ l, e.id ≠ jid) →
      ∀ s, findById (l.foldl (stepStore env now) s) jid = findById s jid := by
  intro l
  induction l with
  | nil => intro _ s; rfl
  | cons e rest ih =>
    intro hl s
    rw [List.foldl_cons, ih (fun x hx => hl x (List.mem_cons_of_mem e hx)) _]
    rw [stepStore, findById_applyUpdate_ne _ _ _ _ (outcomeFn_id _ now)
      (hl e (List.mem_cons_self e rest))]

/-- With unique store IDs, the final state of a pending record after a
dispatch run is exactly its own outcome applied to it. -/
theorem mailScheduledSend_findById (env : DispatchEnv) (store : List ScheduledEmailData)
    (accountName : String) (now : Nat) (j : ScheduledEmailData)
    (hids : (store.map (fun r => r.id)).Nodup)
    (hj : j ∈ GetPendingScheduledEmails store accountName now)
    (hcfg : env.loadConfig = Except.ok ()) :
    findById (mailScheduledSendCmd env store accountName now false).store j.id
      = some (outcomeFn (dispatchOutcome env j) now j) := by
  have hpne : ¬ (GetPendingScheduledEmails store accountName now).isEmpty := by
    intro hc
    rw [List.isEmpty_iff] at hc
    rw [hc] at hj
    simp at hj
  have hrun : mailScheduledSendCmd env store accountName now false =
      (GetPendingScheduledEmails store accountName now).foldl (dispatchStep env now)
        ⟨store, 0, 0, [], [], none⟩ := by
    rw [mailScheduledSendCmd]
    simp only [hcfg]
    simp [hpne]
  obtain ⟨hst, _, _, _, _⟩ := foldl_dispatchStep_proj env now
    (GetPendingScheduledEmails store accountName now) ⟨store, 0, 0, [], [], none⟩
  have hndp : ((GetPendingScheduledEmails store accountName now).map
      (fun r => r.id)).Nodup :=
    List.Nodup.sublist ((List.filter_sublist _).map _) hids
  obtain ⟨l1, l2, hsplit⟩ := List.append_of_mem hj
  rw [hsplit, List.map_append, List.map_cons, List.nodup_append] at hndp
  obtain ⟨_, hn2, hdisj⟩ := hndp
  have h1 : ∀ e ∈ l1, e.id ≠ j.id := by
    intro e he hc
    exact hdisj (List.mem_map_of_mem _ he) (by rw [hc]; exact List.mem_cons_self _ _)
  have h2 : ∀ e ∈ l2, e.id ≠ j.id := by
    intro e he hc
    rw [List.nodup_cons] at hn2
    exact hn2.1 (hc ▸ List.mem_map_of_mem _ he)
  have hjstore : j ∈ store := (List.mem_filter.mp hj).1
  rw [hrun, hst, hsplit, List.foldl_append, List.foldl_cons]
  rw [foldl_stepStore_findById_ne env now j.id l2 h2 _]
  rw [stepStore, findById_applyUpdate_self _ _ _ (outcomeFn_id _ now)]
  rw [foldl_stepStore_findById_ne env now j.id l1 h1 store]
  rw [findById_of_nodup store j hids hjstore]
  rfl

/-- C5: in a dispatch over N due records, every record is attempted (the
attempt log lists all pending IDs and the two counters sum to N), and the
final state of any one record depends only on its own outcome: two
environments agreeing on that record leave it in the same state, whatever
they do to the others. -/
theorem dispatch_error_isolation (env1 env2 : DispatchEnv)
    (store : List ScheduledEmailData) (accountName : String) (now : Nat)
    (j : ScheduledEmailData)
    (hids : (store.map (fun r => r.id)).Nodup)
    (hj : j ∈ GetPendingScheduledEmails store accountName now)
    (hcfg1 : env1.loadConfig = Except.ok ())
    (hcfg2 : env2.loadConfig = Except.ok ())
    (hagree : dispatchOutcome env1 j = dispatchOutcome env2 j) :
    findById (mailScheduledSendCmd env1 store accountName now false).store j.id
      = some (outcomeFn (dispatchOutcome env1 j) now j) ∧
    findById (mailScheduledSendCmd env2 store accountName now false).store j.id
      = findById (mailScheduledSendCmd env1 store accountName now false).store j.id ∧
    (mailScheduledSendCmd env1 store accountName now false).attemptLog
      = (GetPendingScheduledEmails store accountName now).map (fun r => r.id) ∧
    (mailScheduledSendCmd env1 store accountName now false).sentCount
        + (mailScheduledSendCmd env1 store accountName now false).errorCount
      = (GetPendingScheduledEmails store accountName now).length := by
  have hf1 := mailScheduledSend_findById env1 store accountName now j hids hj hcfg1
  have hf2 := mailScheduledSend_findById env2 store accountName now j hids hj hcfg2
  have hpne : ¬ (GetPendingScheduledEmails store accountName now).isEmpty := by
    intro hc
    rw [List.isEmpty_iff] at hc
    rw [hc] at hj
    simp at hj
  have hrun : mailScheduledSendCmd env1 store accountName now false =
      (GetPendingScheduledEmails store accountName now).foldl (dispatchStep env1 now)
        ⟨store, 0, 0, [], [], none⟩ := by
    rw [mailScheduledSendCmd]
    simp only [hcfg1]
    simp [hpne]
  obtain ⟨_, hcnt, hatt, _, _⟩ := foldl_dispatchStep_proj env1 now
    (GetPendingScheduledEmails store accountName now) ⟨store, 0, 0, [], [], none⟩
  refine ⟨hf1, ?_, ?_, ?_⟩
  · rw [hf1, hf2, hagree]
  · rw [hrun, hatt]
    rfl
  · rw [hrun, hcnt]
    simp

/-- C5 witness: the isolation theorem applied to a one-record store under the
all-success environment. -/
theorem dispatch_error_isolation_witness :
    findById (mailScheduledSendCmd okEnv [sampleRecord] "" 20 false).store
        sampleRecord.id
      = some (outcomeFn (dispatchOutcome okEnv sampleRecord) 20 sampleRecord) ∧
    findById (mailScheduledSendCmd okEnv [sampleRecord] "" 20 false).store
        sampleRecord.id
      = findById (mailScheduledSendCmd okEnv [sampleRecord] "" 20 false).store
          sampleRecord.id ∧
    (mailScheduledSendCmd okEnv [sampleRecord] "" 20 false).attemptLog
      = (GetPendingScheduledEmails [sampleRecord] "" 20).map (fun r => r.id) ∧
    (mailScheduledSendCmd okEnv [sampleRecord] "" 20 false).sentCount
        + (mailScheduledSendCmd okEnv [sampleRecord] "" 20 false).errorCount
      = (GetPendingScheduledEmails [sampleRecord] "" 20).length :=
  dispatch_error_isolation okEnv okEnv [sampleRecord] "" 20 sampleRecord
    (by decide) (by decide) rfl rfl rfl

/-- CalendarEventSummary mirrors the display struct of internal/output, with
time.Time as Nat; the End field is named endTime because end is a reserved
word here. -/
structure CalendarEventSummary where
  id : String
  account : String
  calendarID : String
  summary : String
  start : Nat
  endTime : Nat
  location : String
  status : String
  allDay : Bool
deriving DecidableEq

/-- EmailSummary mirrors the display struct of internal/output, with time.Time
as Nat; the From field is named fromAddr because from is a reserved word
here. -/
structure EmailSummary where
  id : String
  account : String
  fromAddr : String
  subject : String
  date : Nat
  snippet : String
  hasAttach : Bool
deriving DecidableEq

/-- selectStartMin renders one outer iteration of the Go sortEventsByStart
loop on the suffix starting at index i: the first component is the value left
in slot i after the inner j loop (each time events[j].Start is before the
current slot value the two are swapped, so the old slot value moves to
position j and the scan carries the smaller one), and the second component is
the rest of the suffix after those swaps. -/
def selectStartMin : CalendarEventSummary → List CalendarEventSummary →
    CalendarEventSummary × List CalendarEventSummary
  | x, [] => (x, [])
  | x, y :: ys =>
    if y.start < x.start then
      ((selectStartMin y ys).1, x :: (selectStartMin y ys).2)
    else
      ((selectStartMin x ys).1, y :: (selectStartMin x ys).2)

/-- The inner loop only rearranges the suffix, so its length is unchanged. -/
theorem selectStartMin_snd_length :
    ∀ (x : CalendarEventSummary) (ys : List CalendarEventSummary),
      (selectStartMin x ys).2.length = ys.length := by
  intro x ys
  induction ys generalizing x with
  | nil => rfl
  | cons y ys ih =>
    rw [selectStartMin]
    by_cases h : y.start < x.start <;> simp [h, ih]

/-- sortEventsByStart mirrors the Go double loop of cal.go: for each position
i the inner j loop swaps smaller-start events into slot i, which places the
minimum of the remaining suffix at i and continues on the rearranged rest. -/
def sortEventsByStart : List CalendarEventSummary → List CalendarEventSummary
  | [] => []
  | x :: xs => (selectStartMin x xs).1 :: sortEventsByStart (selectStartMin x xs).2
termination_by l => l.length
decreasing_by
  simp [selectStartMin_snd_length]

/-- The slot value after the inner loop is minimal for the whole suffix. -/
theorem selectStartMin_min :
    ∀ (x : CalendarEventSummary) (ys : List CalendarEventSummary),
      (selectStartMin x ys).1.start ≤ x.start ∧
      ∀ z ∈ (selectStartMin x ys).2, (selectStartMin x ys).1.start ≤ z.start := by
  intro x ys
  induction ys generalizing x with
  | nil => exact ⟨le_refl _, by simp [selectStartMin]⟩
  | cons y ys ih =>
    rw [selectStartMin]
    by_cases h : y.start < x.start
    · obtain ⟨hm, hall⟩ := ih y
      refine ⟨by simpa [h] using hm.trans (le_of_lt h), ?_⟩
      intro z hz
      simp only [if_pos h] at hz ⊢
      rcases List.mem_cons.mp hz with rfl | hz2
      · exact hm.trans (le_of_lt h)
      · exact hall z hz2
    · obtain ⟨hm, hall⟩ := ih x
      refine ⟨by simpa [h] using hm, ?_⟩
      intro z hz
      simp only [if_neg h] at hz ⊢
      rcases List.mem_cons.mp hz with rfl | hz2
      · exact hm.trans (le_of_not_lt h)
      · exact hall z hz2

/-- One outer iteration permutes the suffix. -/
theorem selectStartMin_perm :
    ∀ (x : CalendarEventSummary) (ys : List CalendarEventSummary),
      ((selectStartMin x ys).1 :: (selectStartMin x ys).2).Perm (x :: ys) := by
  intro x ys
  induction ys generalizing x with
  | nil => rfl
  | cons y ys ih =>
    rw [selectStartMin]
    by_cases h : y.start < x.start
    · simp only [if_pos h]
      exact (List.Perm.swap _ _ _).trans ((ih y).cons x)
    · simp only [if_neg h]
      exact ((List.Perm.swap _ _ _).trans ((ih x).cons y)).trans
        (List.Perm.swap _ _ _)

/-- The Go sort permutes the event list. -/
theorem sortEventsByStart_perm (l : List CalendarEventSummary) :
    (sortEventsByStart l).Perm l := by
  have key : ∀ (n : Nat) (l : List CalendarEventSummary), l.length ≤ n →
      (sortEventsByStart l).Perm l := by
    intro n
    induction n with
    | zero =>
      intro l hl
      rw [List.length_eq_zero.mp (Nat.le_zero.mp hl), sortEventsByStart]
    | succ n ih =>
      intro l hl
      match l with
      | [] => rw [sortEventsByStart]
      | x :: xs =>
        rw [sortEventsByStart]
        have hlen : (selectStartMin x xs).2.length ≤ n := by
          rw [selectStartMin_snd_length]
          simpa using Nat.lt_succ_iff.mp (Nat.lt_of_lt_of_le (by simp) hl)
        exact ((ih _ hlen).cons _).trans (selectStartMin_perm x xs)
  exact key l.length l (le_refl _)

/-- The Go sort produces a list ascending in the start key. -/
theorem sortEventsByStart_sorted (l : List CalendarEventSummary) :
    List.Pairwise (fun a b => a.start ≤ b.start) (sortEventsByStart l) := by
  have key : ∀ (n : Nat) (l : List CalendarEventSummary), l.length ≤ n →
      List.Pairwise (fun a b => a.start ≤ b.start) (sortEventsByStart l) := by
    intro n
    induction n with
    | zero =>
      intro l hl
      rw [List.length_eq_zero.mp (Nat.le_zero.mp hl), sortEventsByStart]
      exact List.Pairwise.nil
    | succ n ih =>
      intro l hl
      match l with
      | [] => rw [sortEventsByStart]; exact List.Pairwise.nil
      | x :: xs =>
        rw [sortEventsByStart]
        have hlen : (selectStartMin x xs).2.length ≤ n := by
          rw [selectStartMin_snd_length]
          simpa using Nat.lt_succ_iff.mp (Nat.lt_of_lt_of_le (by simp) hl)
        refine List.pairwise_cons.mpr ⟨?_, ih _ hlen⟩
        intro z hz
        have hz2 : z ∈ (selectStartMin x xs).2 :=
          (sortEventsByStart_perm _).mem_iff.mp hz
        exact (selectStartMin_min x xs).2 z hz2
  exact key l.length l (le_refl _)

/-- calListMerge is the calendar fan-out merge of cal.go: the per-account
result lists are appended to one shared slice (in completion order) and then
sorted by sortEventsByStart before printing. -/
def calListMerge (results : List (List CalendarEventSummary)) :
    List CalendarEventSummary :=
  sortEventsByStart results.flatten

/-- mailReadMerge is the mail fan-out merge of mail.go: the per-account result
lists are appended to one shared slice (in completion order) and printed
directly, with no sorting step. -/
def mailReadMerge (results : List (List EmailSummary)) : List EmailSummary :=
  results.flatten

/-- C6 amended: the calendar fan-out merge is sorted ascending by event start
regardless of the order in which per-account results arrive, and it holds
exactly the merged events; the mail fan-out merge has no such sorting step
(see the counterexample). -/
theorem calListMerge_sorted (results : List (List CalendarEventSummary)) :
    List.Pairwise (fun a b => a.start ≤ b.start) (calListMerge results) ∧
    (calListMerge results).Perm results.flatten :=
  ⟨sortEventsByStart_sorted _, sortEventsByStart_perm _⟩

/-- Later-dated email returned by the account finishing first. -/
def cexEmailLate : EmailSummary :=
  { id := "m1", account := "acct1", fromAddr := "a@x.y", subject := "s1",
    date := 2, snippet := "", hasAttach := false }

/-- Earlier-dated email returned by the account finishing second. -/
def cexEmailEarly : EmailSummary :=
  { id := "m2", account := "acct2", fromAddr := "b@x.y", subject := "s2",
    date := 1, snippet := "", hasAttach := false }

/-- C6 counterexample: the merged mail listing is the bare concatenation of
per-account results, so when the later-dated message arrives first the merged
result is not ascending in the message date. -/
theorem mailReadMerge_unsorted_cex :
    mailReadMerge [[cexEmailLate], [cexEmailEarly]] = [cexEmailLate, cexEmailEarly] ∧
    ¬ List.Pairwise (fun a b : EmailSummary => a.date ≤ b.date)
        (mailReadMerge [[cexEmailLate], [cexEmailEarly]]) := by
  refine ⟨rfl, fun h => ?_⟩
  have h2 := (List.pairwise_cons.mp (by exact h)).1 cexEmailEarly (by simp)
  exact absurd h2 (by decide)

/-- ScheduleOutcome tags the return site of the Go mailScheduleCmd RunE body:
one constructor per early validation return, one for the past-time check, one
per downstream failure, and success carrying the created draft ID. -/
inductive ScheduleOutcome where
  | missingTo
  | missingSubject
  | missingBody
  | missingAt
  | parseErr (msg : String)
  | pastTime
  | configErr (msg : String)
  | accountErr (msg : String)
  | clientErr (msg : String)
  | draftErr (msg : String)
  | storeErr (msg : String)
  | scheduled (draftID : String)
deriving DecidableEq

/-- Error text of each mailScheduleCmd return site, as the Go code formats
it. -/
def scheduleErrorText : ScheduleOutcome → Option String
  | ScheduleOutcome.missingTo => some "at least one recipient is required (--to)"
  | ScheduleOutcome.missingSubject => some "subject is required (--subject)"
  | ScheduleOutcome.missingBody => some "body is required (--body)"
  | ScheduleOutcome.missingAt => some "schedule time is required (--at)"
  | ScheduleOutcome.parseErr m => some ("invalid schedule time: " ++ m)
  | ScheduleOutcome.pastTime => some "schedule time must be in the future"
  | ScheduleOutcome.configErr m => some ("failed to load config: " ++ m)
  | ScheduleOutcome.accountErr m => some m
  | ScheduleOutcome.clientErr m => some m
  | ScheduleOutcome.draftErr m => some m
  | ScheduleOutcome.storeErr m => some ("failed to schedule email: " ++ m)
  | ScheduleOutcome.scheduled _ => none

/-- ScheduleRun is the observable outcome of one mailScheduleCmd invocation:
which return site fired, whether CreateDraft was reached (a remote draft now
exists), and whether AddScheduledEmail persisted a record. -/
structure ScheduleRun where
  outcome : ScheduleOutcome
  draftCreated : Bool
  storeWritten : Bool
deriving DecidableEq

/-- ScheduleEnv supplies the ambient effects of mailScheduleCmd in call order:
config.Load, cfg.GetAccount (resolving to the account name), gmail.NewClient,
client.CreateDraft (returning the draft ID), and the I/O of
AddScheduledEmail. -/
structure ScheduleEnv where
  loadConfig : Except String Unit
  getAccount : Except String String
  newClient : Except String Unit
  createDraft : Except String String
  saveStore : Except String Unit

/-- mailScheduleCmd mirrors the Go command body: validate recipients, subject,
body and the at flag, parse the schedule time (the parse result is passed in,
the claim quantifies over parsed times), reject a time strictly before now,
then load config, resolve the account, build the client, create the draft and
persist the scheduled record. -/
def mailScheduleCmd (env : ScheduleEnv) (toFlag : List String)
    (subject body atStr : String) (parsed : Except String Nat) (now : Nat) :
    ScheduleRun :=
  if toFlag = [] then ⟨ScheduleOutcome.missingTo, false, false⟩
  else if subject = "" then ⟨ScheduleOutcome.missingSubject, false, false⟩
  else if body = "" then ⟨ScheduleOutcome.missingBody, false, false⟩
  else if atStr = "" then ⟨ScheduleOutcome.missingAt, false, false⟩
  else
    match parsed with
    | Except.error m => ⟨ScheduleOutcome.parseErr m, false, false⟩
    | Except.ok scheduledAt =>
      if scheduledAt < now then ⟨ScheduleOutcome.pastTime, false, false⟩
      else
        match env.loadConfig with
        | Except.error m => ⟨ScheduleOutcome.configErr m, false, false⟩
        | Except.ok _ =>
          match env.getAccount with
          | Except.error m => ⟨ScheduleOutcome.accountErr m, false, false⟩
          | Except.ok _ =>
            match env.newClient with
            | Except.error m => ⟨ScheduleOutcome.clientErr m, false, false⟩
            | Except.ok _ =>
              match env.createDraft with
              | Except.error m => ⟨ScheduleOutcome.draftErr m, false, false⟩
              | Except.ok draftID =>
                match env.saveStore with
                | Except.error m => ⟨ScheduleOutcome.storeErr m, true, false⟩
                | Except.ok _ => ⟨ScheduleOutcome.scheduled draftID, true, true⟩

/-- C9: once the flag validations pass, a parsed schedule time strictly before
now makes mailScheduleCmd fail at the past-time check, whose message is
exactly the future-requirement text, before any draft is created or store
write attempted; and with the parsed time equal to now that check never
fires. -/
theorem mailSchedule_past_time_check (env : ScheduleEnv) (toFlag : List String)
    (subject body atStr : String) (t now : Nat) :
    (toFlag ≠ [] → subject ≠ "" → body ≠ "" → atStr ≠ "" → t < now →
      mailScheduleCmd env toFlag subject body atStr (Except.ok t) now
        = ⟨ScheduleOutcome.pastTime, false, false⟩) ∧
    (t = now →
      (mailScheduleCmd env toFlag subject body atStr (Except.ok t) now).outcome
        ≠ ScheduleOutcome.pastTime) ∧
    scheduleErrorText ScheduleOutcome.pastTime
      = some "schedule time must be in the future" := by
  refine ⟨?_, ?_, rfl⟩
  · intro hto hsub hbody hat hlt
    rw [mailScheduleCmd]
    simp [hto, hsub, hbody, hat, hlt]
  · intro ht
    rw [mailScheduleCmd]
    by_cases hto : toFlag = []
    · simp [hto]
    by_cases hsub : subject = ""
    · simp [hto, hsub]
    by_cases hbody : body = ""
    · simp [hto, hsub, hbody]
    by_cases hat : atStr = ""
    · simp [hto, hsub, hbody, hat]
    have hnlt : ¬ t < now := by omega
    simp only [hto, hsub, hbody, hat, if_neg, if_false]
    simp only [hnlt, if_false]
    cases env.loadConfig with
    | error m => simp
    | ok u =>
      cases env.getAccount with
      | error m => simp
      | ok a =>
        cases env.newClient with
        | error m => simp
        | ok c =>
          cases env.createDraft with
          | error m => simp
          | ok d =>
            cases env.saveStore with
            | error m => simp
            | ok s => simp

/-- Environment in which every external call of the schedule command
succeeds. -/
def okScheduleEnv : ScheduleEnv :=
  { loadConfig := Except.ok (), getAccount := Except.ok "work",
    newClient := Except.ok (), createDraft := Except.ok "draft-1",
    saveStore := Except.ok () }

/-- C9 witness: a time one tick in the past is rejected with no side effects,
and a time equal to now passes the check. -/
theorem mailSchedule_past_time_check_witness :
    mailScheduleCmd okScheduleEnv ["a@x.y"] "s" "b" "2024-01-01T00:00:01" (Except.ok 1) 2
      = ⟨ScheduleOutcome.pastTime, false, false⟩ ∧
    (mailScheduleCmd okScheduleEnv ["a@x.y"] "s" "b" "2024-01-01T00:00:02" (Except.ok 2)
        2).outcome ≠ ScheduleOutcome.pastTime :=
  ⟨(mailSchedule_past_time_check okScheduleEnv ["a@x.y"] "s" "b" "2024-01-01T00:00:01"
      1 2).1 (by decide) (by decide) (by decide) (by decide) (by decide),
    (mailSchedule_past_time_check okScheduleEnv ["a@x.y"] "s" "b" "2024-01-01T00:00:02"
      2 2).2.1 rfl⟩

/-- decChars computes the decimal digit characters of a number, most
significant first; it is the closed form of the fuel-based core rendering used
by toString on Nat. -/
def decChars (n : Nat) : List Char :=
  if n < 10 then [Nat.digitChar n]
  else decChars (n / 10) ++ [Nat.digitChar (n % 10)]
termination_by n
decreasing_by exact Nat.div_lt_self (by omega) (by omega)

/-- With enough fuel, the core digit renderer produces decChars. -/
theorem toDigitsCore_eq_decChars :
    ∀ (fuel n : Nat) (ds : List Char), n < fuel →
      Nat.toDigitsCore 10 fuel n ds = decChars n ++ ds := by
  intro fuel
  induction fuel with
  | zero => intro n ds h; omega
  | succ fuel ih =>
    intro n ds h
    by_cases h0 : n / 10 = 0
    · have hn : n < 10 := by
        by_contra hc
        have : 10 ≤ n := by omega
        have := Nat.le_div_iff_mul_le (by omega) |>.mpr (by omega : 1 * 10 ≤ n)
        omega
      simp only [Nat.toDigitsCore, h0, if_pos]
      rw [decChars, if_pos hn, Nat.mod_eq_of_lt hn]
      rfl
    · have hn : ¬ n < 10 := by
        intro hc
        exact h0 (Nat.div_eq_of_lt hc)
      have hpos : 0 < n := by
        rcases Nat.eq_zero_or_pos n with rfl | hp
        · exact absurd rfl h0
        · exact hp
      simp only [Nat.toDigitsCore, h0, if_false]
      have hrhs : decChars n = decChars (n / 10) ++ [Nat.digitChar (n % 10)] := by
        rw [decChars, if_neg hn]
      rw [ih (n / 10) _ (Nat.lt_of_lt_of_le (Nat.div_lt_self hpos (by omega))
        (Nat.lt_succ_iff.mp h))]
      rw [hrhs, List.append_assoc]
      rfl

/-- decVal decodes a digit-character list back to the number. -/
def decVal (l : List Char) : Nat :=
  l.foldl (fun acc c => acc * 10 + (c.toNat - 48)) 0

/-- Each decimal digit character decodes to its digit. -/
theorem digitChar_toNat_sub : ∀ d, d < 10 → (Nat.digitChar d).toNat - 48 = d := by
  decide

/-- decVal is a left inverse of decChars. -/
theorem decVal_decChars (n : Nat) : decVal (decChars n) = n := by
  induction n using Nat.strong_induction_on with
  | _ n ih =>
    by_cases h : n < 10
    · rw [decChars, if_pos h, decVal]
      simp [digitChar_toNat_sub n h]
    · rw [decChars, if_neg h, decVal, List.foldl_append]
      have hpos : 0 < n := by omega
      have ih2 := ih (n / 10) (Nat.div_lt_self hpos (by omega))
      rw [decVal] at ih2
      simp only [List.foldl_cons, List.foldl_nil]
      rw [ih2, digitChar_toNat_sub (n % 10) (Nat.mod_lt n (by omega))]
      have := Nat.div_add_mod n 10
      omega

/-- Distinct clock readings render to distinct IDs: the decimal rendering used
by generateID is injective. -/
theorem generateID_injective : Function.Injective generateID := by
  intro m n h
  have key : ∀ k : Nat, generateID k = (decChars k).asString := by
    intro k
    show (Nat.toDigitsCore 10 (k + 1) k []).asString = _
    rw [toDigitsCore_eq_decChars (k + 1) k [] (Nat.lt_succ_self k), List.append_nil]
  rw [key m, key n] at h
  have hdata : decChars m = decChars n := congrArg String.data h
  have := congrArg decVal hdata
  rwa [decVal_decChars, decVal_decChars] at this

/-- addSeq runs a sequence of AddScheduledEmail calls, each with the item
passed and the nanosecond clock reading observed at that call. -/
def addSeq (emails : List ScheduledEmailData)
    (calls : List (ScheduledEmailData × Nat)) : List ScheduledEmailData :=
  calls.foldl (fun acc c => AddScheduledEmail acc c.1 c.2) emails

/-- C8 amended: a sequence of Add calls appends records whose assigned IDs are
the decimal renderings of the observed clock readings, and those IDs are
pairwise distinct provided the clock readings are pairwise distinct (the
generator is the bare nanosecond timestamp, so two calls in the same
nanosecond collide — see the counterexample). -/
theorem addSeq_ids (emails : List ScheduledEmailData)
    (calls : List (ScheduledEmailData × Nat)) :
    (addSeq emails calls).map (fun r => r.id)
      = emails.map (fun r => r.id) ++ (calls.map (fun c => c.2)).map generateID ∧
    ((calls.map (fun c => c.2)).Nodup →
      ((calls.map (fun c => c.2)).map generateID).Nodup) := by
  constructor
  · induction calls generalizing emails with
    | nil => simp [addSeq]
    | cons c cs ih =>
      rw [addSeq, List.foldl_cons]
      have := ih (AddScheduledEmail emails c.1 c.2)
      rw [addSeq] at this
      rw [this, AddScheduledEmail]
      simp [generateID]
  · intro hnd
    exact hnd.map generateID_injective

/-- C8 witness: two Add calls at distinct nanoseconds yield distinct IDs. -/
theorem addSeq_ids_witness :
    (([(sampleRecord, 1), (sampleRecord, 2)].map
        (fun c : ScheduledEmailData × Nat => c.2)).map generateID).Nodup :=
  (addSeq_ids [] [(sampleRecord, 1), (sampleRecord, 2)]).2 (by decide)

/-- C8 counterexample: two Add calls observing the same nanosecond clock
reading are assigned the same ID, so the IDs of a sequence of Add calls are
not pairwise distinct in general. -/
theorem addSeq_id_collision_cex :
    ((addSeq [] [(sampleRecord, 5), (sampleRecord, 5)]).map (fun r => r.id))
      = [generateID 5, generateID 5] ∧
    ¬ ((addSeq [] [(sampleRecord, 5), (sampleRecord, 5)]).map (fun r => r.id)).Nodup := by
  exact ⟨by decide, by decide⟩

end Gcli
